import Mathlib

/-!
Verification of the "Resilient Structured-Text Exchange" utilities of this
repository: the tolerant JSON extractor (`_safe_json_loads` in
`integrate/backend/core/ai_core.py` and `Optimization/backend/backend.py`),
the array extractor with comma repair in
`joblisting/backend/main.py::get_job_ratings_in_one_call`, the fuzzy section
matcher (`_best_section_key`), the edit-request parser
(`parse_user_optimization_input`), the partial-update merger inside
`optimize_resume_json`, the read-fallback item view of
`DatabaseManager.fetch_resume_relational`, and the match-then-update
propagation of `DatabaseManager.update_optimized_resume_relational`.

Strings are shallowly embedded as `List Char` (named `Str`); Python `None`
and exceptions become `Option`; Python dicts become association lists in
insertion order (faithful to Python 3.7+ dict ordering); JSON values become
the inductive type `Json`, with numbers modelled as integers (no verified
property exercises floating-point literals, so `json.loads`'s float support
is out of the model; likewise the model accepts leading zeros in numerals,
which `json.loads` rejects — no claim depends on either point).
-/

set_option maxHeartbeats 1000000

namespace GenAIHack

abbrev Str := List Char

/-- Whitespace predicate matching Python `str.strip` / `str.split` on the
ASCII inputs under verification. -/
def isWspace (c : Char) : Bool :=
  c = ' ' || c = '\n' || c = '\t' || c = '\r' || c = '\x0b' || c = '\x0c'

/-- Python `s.lstrip()`. -/
def trimL (s : Str) : Str := s.dropWhile isWspace

/-- Python `s.rstrip()`. -/
def trimR (s : Str) : Str := (s.reverse.dropWhile isWspace).reverse

/-- Python `s.strip()`. -/
def trim (s : Str) : Str := trimR (trimL s)

/-- Python `s.startswith(pre)` (first argument is the prefix). -/
def startsWithL : Str → Str → Bool
  | [], _ => true
  | _ :: _, [] => false
  | p :: ps, c :: cs => p == c && startsWithL ps cs

/-- Python substring membership `needle in hay` (an empty needle is contained
in every string). -/
def containsSub (needle : Str) : Str → Bool
  | [] => startsWithL needle []
  | c :: cs => startsWithL needle (c :: cs) || containsSub needle cs

/-- Python `s.split('\n')` (keeps empty parts). -/
def splitOnNl : Str → List Str
  | [] => [[]]
  | c :: rest =>
    if c = '\n' then [] :: splitOnNl rest
    else
      match splitOnNl rest with
      | t :: ts => (c :: t) :: ts
      | [] => [[c]]

/-- Number of tokens of Python `s.split()` (split on whitespace runs,
dropping empty tokens). -/
def tokenCount (s : Str) : Nat :=
  (s.foldl
    (fun (st : Nat × Bool) c =>
      if isWspace c then (st.1, true)
      else (if st.2 then st.1 + 1 else st.1, false))
    (0, true)).1

/-- JSON values as produced by Python `json.loads`: `None`, booleans,
numbers (modelled as integers), strings, lists and dicts (association
lists in insertion order). -/
inductive Json where
  | null : Json
  | bool : Bool → Json
  | num : Int → Json
  | str : Str → Json
  | arr : List Json → Json
  | obj : List (Str × Json) → Json

mutual

def Json.beq : Json → Json → Bool
  | .null, .null => true
  | .bool a, .bool b => a == b
  | .num a, .num b => a == b
  | .str a, .str b => a == b
  | .arr as, .arr bs => Json.beqList as bs
  | .obj as, .obj bs => Json.beqKvs as bs
  | _, _ => false

def Json.beqList : List Json → List Json → Bool
  | [], [] => true
  | a :: as, b :: bs => Json.beq a b && Json.beqList as bs
  | _, _ => false

def Json.beqKvs : List (Str × Json) → List (Str × Json) → Bool
  | [], [] => true
  | (k1, v1) :: as, (k2, v2) :: bs => k1 == k2 && Json.beq v1 v2 && Json.beqKvs as bs
  | _, _ => false

end

/-- Python truthiness of a JSON value (`None`, `False`, `0`, `""`, `[]` and
the empty dict are falsy). -/
def truthy : Json → Bool
  | .null => false
  | .bool b => b
  | .num n => n != 0
  | .str s => !s.isEmpty
  | .arr xs => !xs.isEmpty
  | .obj kvs => !kvs.isEmpty

/-- First-occurrence lookup in an association list: Python `d[k]` (as the
`some` case) and the defined case of `d.get(k)`. -/
def getVal : List (Str × Json) → Str → Option Json
  | [], _ => none
  | (k', v) :: rest, k => if k' = k then some v else getVal rest k

/-- Python `d.get(k, default)`. -/
def pyGetD (d : List (Str × Json)) (k : Str) (dflt : Json) : Json :=
  match getVal d k with
  | some v => v
  | none => dflt

/-- Python `d.get(k)` (a missing key yields `None`). -/
def pyGet (d : List (Str × Json)) (k : Str) : Json := pyGetD d k Json.null

/-- Python `d[k] = v`: overwrite in place when the key exists, else append
(insertion-order semantics of Python dicts). -/
def setVal : List (Str × Json) → Str → Json → List (Str × Json)
  | [], k, v => [(k, v)]
  | (k', v') :: rest, k, v =>
    if k' = k then (k, v) :: rest else (k', v') :: setVal rest k v

/-- Drop every binding of key `k` (used to speak about "all fields other
than `k`" in the frame theorems). -/
def eraseKey (d : List (Str × Json)) (k : Str) : List (Str × Json) :=
  d.filter (fun kv => decide (kv.1 ≠ k))

/-- Key membership, Python `k in d`. -/
def keyMem (k : Str) (d : List (Str × Json)) : Bool := (getVal d k).isSome

/-- Keys of an association list are pairwise distinct — always true of a
value that denotes an actual Python dict. -/
def nodupKeysB : List (Str × Json) → Bool
  | [] => true
  | (k, _) :: rest => !keyMem k rest && nodupKeysB rest

/-- A record denotes a Python dict whose dict-valued entries also denote
Python dicts (the shapes touched by the whole-record merge). -/
def wfRecord (d : List (Str × Json)) : Bool :=
  nodupKeysB d &&
    d.all (fun kv =>
      match kv.2 with
      | .obj o => nodupKeysB o
      | _ => true)

/-! ## JSON serialization (the spec's `serialize`)

A standard compact JSON serializer: no whitespace, strings escaped with
`\"`, `\\` and `\u00XX` for control characters. -/

def digitChar (n : Nat) : Char := Char.ofNat ('0'.toNat + n)

def hexDigitChar (n : Nat) : Char :=
  if n < 10 then digitChar n else Char.ofNat ('a'.toNat + (n - 10))

def natCharsAux : Nat → Nat → Str
  | 0, _ => []
  | fuel + 1, n =>
    if n < 10 then [digitChar n]
    else natCharsAux fuel (n / 10) ++ [digitChar (n % 10)]

/-- Decimal digits of a natural number, most significant first. -/
def natChars (n : Nat) : Str := natCharsAux (n + 1) n

/-- Decimal representation of an integer. -/
def intChars (n : Int) : Str :=
  if n < 0 then '-' :: natChars n.natAbs else natChars n.toNat

def escChar (c : Char) : Str :=
  if c = '"' then ['\\', '"']
  else if c = '\\' then ['\\', '\\']
  else if c.toNat < 32 then
    ['\\', 'u', '0', '0', hexDigitChar (c.toNat / 16), hexDigitChar (c.toNat % 16)]
  else [c]

def escape (s : Str) : Str := s.foldr (fun c acc => escChar c ++ acc) []

mutual

def serialize : Json → Str
  | .null => 'n' :: ['u', 'l', 'l']
  | .bool true => 't' :: ['r', 'u', 'e']
  | .bool false => 'f' :: ['a', 'l', 's', 'e']
  | .num n => intChars n
  | .str s => '"' :: (escape s ++ ['"'])
  | .arr xs => '[' :: (serElems xs ++ [']'])
  | .obj kvs => '{' :: (serMembers kvs ++ ['}'])

def serElems : List Json → Str
  | [] => []
  | [x] => serialize x
  | x :: y :: tl => serialize x ++ ',' :: serElems (y :: tl)

def serMembers : List (Str × Json) → Str
  | [] => []
  | [(k, v)] => '"' :: (escape k ++ '"' :: ':' :: serialize v)
  | (k, v) :: m :: tl =>
    ('"' :: (escape k ++ '"' :: ':' :: serialize v)) ++ ',' :: serMembers (m :: tl)

end

/-! ## Strict JSON parsing (`json.loads`)

A fuel-based recursive-descent parser; `jsonParse` supplies enough fuel for
its input, so the fuel is an implementation device, not a semantic limit. -/

def skipWs (s : Str) : Str := s.dropWhile isWspace

def hexVal (c : Char) : Option Nat :=
  if '0' ≤ c ∧ c ≤ '9' then some (c.toNat - '0'.toNat)
  else if 'a' ≤ c ∧ c ≤ 'f' then some (10 + c.toNat - 'a'.toNat)
  else if 'A' ≤ c ∧ c ≤ 'F' then some (10 + c.toNat - 'A'.toNat)
  else none

def unescCode (c : Char) : Option Char :=
  if c = '"' then some '"'
  else if c = '\\' then some '\\'
  else if c = '/' then some '/'
  else if c = 'n' then some '\n'
  else if c = 't' then some '\t'
  else if c = 'r' then some '\r'
  else if c = 'b' then some '\x08'
  else if c = 'f' then some '\x0c'
  else none

/-- Parse the body of a JSON string literal (after the opening quote), up to
and including the closing quote; raw control characters are rejected, as by
`json.loads` in strict mode. -/
def parseStrBody : Str → Option (Str × Str)
  | [] => none
  | c :: rest =>
    if c = '"' then some ([], rest)
    else if c = '\\' then
      match rest with
      | [] => none
      | e :: rest2 =>
        if e = 'u' then
          match rest2 with
          | h1 :: h2 :: h3 :: h4 :: rest3 =>
            match hexVal h1, hexVal h2, hexVal h3, hexVal h4 with
            | some a, some b, some hc, some hd =>
              match parseStrBody rest3 with
              | some (cs, r) =>
                some (Char.ofNat (((a * 16 + b) * 16 + hc) * 16 + hd) :: cs, r)
              | none => none
            | _, _, _, _ => none
          | _ => none
        else
          match unescCode e with
          | some c2 =>
            match parseStrBody rest2 with
            | some (cs, r) => some (c2 :: cs, r)
            | none => none
          | none => none
    else if c.toNat < 32 then none
    else
      match parseStrBody rest with
      | some (cs, r) => some (c :: cs, r)
      | none => none

def digitVal (c : Char) : Nat := c.toNat - '0'.toNat

def digitsToNat (ds : Str) : Nat := ds.foldl (fun a c => 10 * a + digitVal c) 0

def parseNumFrom (s : Str) : Option (Json × Str) :=
  match s with
  | [] => none
  | c :: rest =>
    if c = '-' then
      let ds := rest.takeWhile Char.isDigit
      if ds.isEmpty then none
      else some (.num (-(digitsToNat ds : Int)), rest.drop ds.length)
    else
      let ds := (c :: rest).takeWhile Char.isDigit
      if ds.isEmpty then none
      else some (.num (digitsToNat ds), (c :: rest).drop ds.length)

/-- Parse a non-empty comma-separated element list and the closing `]`. -/
def parseElemsAux (pv : Str → Option (Json × Str)) : Nat → Str → Option (List Json × Str)
  | 0, _ => none
  | fuel + 1, s =>
    match pv s with
    | none => none
    | some (v, r) =>
      match skipWs r with
      | ',' :: r2 =>
        match parseElemsAux pv fuel r2 with
        | some (vs, r3) => some (v :: vs, r3)
        | none => none
      | ']' :: r2 => some ([v], r2)
      | _ => none

/-- Parse a non-empty comma-separated member list and the closing brace. -/
def parseMembsAux (pv : Str → Option (Json × Str)) : Nat → Str → Option (List (Str × Json) × Str)
  | 0, _ => none
  | fuel + 1, s =>
    match skipWs s with
    | '"' :: r0 =>
      match parseStrBody r0 with
      | none => none
      | some (k, r1) =>
        match skipWs r1 with
        | ':' :: r2 =>
          match pv r2 with
          | none => none
          | some (v, r3) =>
            match skipWs r3 with
            | ',' :: r4 =>
              match parseMembsAux pv fuel r4 with
              | some (kvs, r5) => some ((k, v) :: kvs, r5)
              | none => none
            | '}' :: r4 => some ([(k, v)], r4)
            | _ => none
        | _ => none
    | _ => none

def parseVal : Nat → Str → Option (Json × Str)
  | 0, _ => none
  | fuel + 1, s =>
    match skipWs s with
    | [] => none
    | c :: rest =>
      if c = '"' then
        match parseStrBody rest with
        | some (cs, r) => some (.str cs, r)
        | none => none
      else if c = '[' then
        match skipWs rest with
        | [] => none
        | c2 :: r2 =>
          if c2 = ']' then some (.arr [], r2)
          else
            match parseElemsAux (fun s2 => parseVal fuel s2) fuel (c2 :: r2) with
            | some (vs, r3) => some (.arr vs, r3)
            | none => none
      else if c = '{' then
        match skipWs rest with
        | [] => none
        | c2 :: r2 =>
          if c2 = '\x7d' then some (.obj [], r2)
          else
            match parseMembsAux (fun s2 => parseVal fuel s2) fuel (c2 :: r2) with
            | some (kvs, r3) => some (.obj kvs, r3)
            | none => none
      else if c = 'n' then
        match rest with
        | 'u' :: 'l' :: 'l' :: r => some (.null, r)
        | _ => none
      else if c = 't' then
        match rest with
        | 'r' :: 'u' :: 'e' :: r => some (.bool true, r)
        | _ => none
      else if c = 'f' then
        match rest with
        | 'a' :: 'l' :: 's' :: 'e' :: r => some (.bool false, r)
        | _ => none
      else parseNumFrom (c :: rest)

/-- `json.loads`: parse one JSON value, allowing surrounding whitespace,
and reject trailing garbage. `none` models `json.JSONDecodeError`. -/
def jsonParse (s : Str) : Option Json :=
  match parseVal (s.length + 1) s with
  | some (v, r) => if skipWs r = [] then some v else none
  | none => none

/-! ## The tolerant JSON extractor (`_safe_json_loads`) -/

/-- Result of `re.search(r"\[.*\]", raw, re.DOTALL)`: first `[` to last `]`. -/
def bracketSub (s : Str) : Option Str :=
  let t := s.drop (s.takeWhile (fun c => decide (c ≠ '['))).length
  match t with
  | [] => none
  | _ :: _ =>
    let suf := t.reverse.takeWhile (fun c => decide (c ≠ ']'))
    let kept := (t.reverse.drop suf.length).reverse
    match kept with
    | [] => none
    | [_] => none
    | _ :: _ :: _ => some kept

/-- One left-to-right pass of `re.sub(r"}\s*{", "},{", s)`: every
object-closing brace followed (possibly across whitespace) by an
object-opening brace gets a comma inserted between them, the whitespace of
the match being consumed. -/
def fixAdjAux : Nat → Str → Str
  | 0, s => s
  | fuel + 1, s =>
    match s with
    | [] => []
    | c :: rest =>
      if c = '\x7d' then
        match rest.drop (rest.takeWhile isWspace).length with
        | '\x7b' :: tail => '\x7d' :: ',' :: '\x7b' :: fixAdjAux fuel tail
        | _ => '\x7d' :: fixAdjAux fuel rest
      else c :: fixAdjAux fuel rest

def fixAdj (s : Str) : Str := fixAdjAux s.length s

/-- The parsing core of `get_job_ratings_in_one_call`: extract the
bracket-delimited substring, strict-parse it, and on failure apply the
comma-insertion repair once and strict-parse again. `none` models the two
error paths (no array-shaped substring / parse failed twice). -/
def ratingsParse (raw : Str) : Option Json :=
  match bracketSub raw with
  | none => none
  | some js =>
    match jsonParse js with
    | some v => some v
    | none =>
      match jsonParse (fixAdj js) with
      | some v => some v
      | none => none

/-! ## The fuzzy section matcher (`_best_section_key`) -/

/-- Python `s.lower().replace(" ", "_")` — the candidate-key normalization
of `_best_section_key` (note: no strip). -/
def lowerRepl (s : Str) : Str :=
  (s.map Char.toLower).map (fun c => if c = ' ' then '_' else c)

def bestKeyGo (t : Str) : List Str → Option Str
  | [] => none
  | k :: ks =>
    let kNorm := lowerRepl k
    if t = kNorm || containsSub t kNorm || containsSub kNorm t then some k
    else bestKeyGo t ks

/-- `_best_section_key` from `integrate/backend/core/ai_core.py`: falsy
target returns `None`; the target is stripped, lower-cased and
space-to-underscore normalized; each candidate is lower-cased and
space-to-underscore normalized (not stripped); the first candidate equal to,
containing, or contained in, the normalized target wins. -/
def best_section_key (target_key : Str) (available_keys : List Str) : Option Str :=
  if target_key = [] then none
  else bestKeyGo (lowerRepl (trim target_key)) available_keys

def specGo (t : Str) : List Str → Option Str
  | [] => none
  | k :: ks =>
    let kNorm := lowerRepl (trim k)
    if t = kNorm || containsSub t kNorm || containsSub kNorm t then some k
    else specGo t ks

/-- Modelled from the spec's words, for comparison with `best_section_key`
(claim C4): the spec says each candidate key is "normalized the same way" as
the target, i.e. trimmed as well; the code does not trim candidates. -/
def resolveSectionKeySpec (target : Str) (availableKeys : List Str) : Option Str :=
  if target = [] then none
  else specGo (lowerRepl (trim target)) availableKeys

/-! ## The edit-request parser (`parse_user_optimization_input`) -/

/-- `parse_user_optimization_input` from `integrate/backend/core/ai_core.py`. -/
def parse_user_optimization_input (inp : Str) : Option Str × Option Str :=
  let val := trim inp
  if val = [] then (none, none)
  else if val.any (fun c => c == ':') then
    let left := val.takeWhile (fun c => decide (c ≠ ':'))
    let right := (val.drop left.length).drop 1
    (some (trim left), some (trim right))
  else if tokenCount val = 1 then (some val, none)
  else (none, some val)

/-! ## The partial-update merger (`optimize_resume_json`) -/

/-- Python `d1.update(d2)`: iterate over `d2`, overwriting existing keys in
place and appending new ones. -/
def dictUpdate (d1 d2 : List (Str × Json)) : List (Str × Json) :=
  d2.foldl (fun acc kv => setVal acc kv.1 kv.2) d1

/-- One iteration of the whole-record merge loop of `optimize_resume_json`
(ai_core.py lines 251-257): if both the existing and the new value are
dicts, merge key-by-key via `dict.update`; if both are lists, the new list
wholly replaces the old; otherwise assign the new value. -/
def mergeStep (acc : List (Str × Json)) (kv : Str × Json) : List (Str × Json) :=
  match getVal acc kv.1, kv.2 with
  | some (.obj o1), .obj o2 => setVal acc kv.1 (.obj (dictUpdate o1 o2))
  | some (.arr _), .arr l2 => setVal acc kv.1 (.arr l2)
  | _, _ => setVal acc kv.1 kv.2

/-- The whole-record merge loop of `optimize_resume_json` (ai_core.py
lines 250-257): iterate `mergeStep` over the model's returned record. -/
def mergeOptimizedRecord (record newRec : List (Str × Json)) : List (Str × Json) :=
  newRec.foldl mergeStep record

/-- The targeted merge of `optimize_resume_json` (ai_core.py line 249):
`resume_json[mapped] = optimized_data`. -/
def mergeOptimizedSection (record : List (Str × Json)) (sectionKey : Str)
    (newContent : Json) : List (Str × Json) :=
  setVal record sectionKey newContent

/-! ## The read-fallback item view (`fetch_resume_relational`) -/

def descKey : Str := "description".toList

def optDescKey : Str := "optimized_description".toList

/-- Split a chosen description into lines when it is a string, else keep it
as is (`desc_to_use.split('\n') if isinstance(desc_to_use, str) else
desc_to_use`). -/
def splitIfStr : Json → Json
  | .str s => .arr ((splitOnNl s).map Json.str)
  | v => v

/-- The per-item body of the section loop of `fetch_resume_relational`
(db_core.py lines 112-125): choose the optimized description only when the
optimized view is requested and the stored value is truthy, else the
original; drop both description fields; re-attach the chosen description
(split into lines when a string) when it is truthy. -/
def fetch_item_view (get_optimized : Bool) (item_data : List (Str × Json)) :
    List (Str × Json) :=
  let descToUse :=
    if get_optimized && truthy (pyGet item_data optDescKey) then pyGet item_data optDescKey
    else pyGet item_data descKey
  let item := item_data.filter (fun kv => decide (kv.1 ≠ optDescKey) && decide (kv.1 ≠ descKey))
  if truthy descToUse then setVal item descKey (splitIfStr descToUse) else item

/-! ## The match-then-update propagation
(`update_optimized_resume_relational`) -/

/-- Python `str.title()` of a string: each alphabetic run is capitalized. -/
def titleCase (s : Str) : Str :=
  (s.foldl
    (fun (st : Str × Bool) c =>
      if c.isAlpha then
        ((if st.2 then c.toLower else c.toUpper) :: st.1, true)
      else (c :: st.1, false))
    ([], false)).1.reverse

/-- Join a list of strings with a separator (Python `sep.join(parts)`). -/
def joinSep (sep : Str) : List Str → Str
  | [] => []
  | [x] => x
  | x :: y :: tl => x ++ sep ++ joinSep sep (y :: tl)

mutual

/-- Python `str(v)` for a JSON value (escaping inside Python's repr of
strings is simplified to plain quoting; no verified claim inspects this
text). -/
def pyStr : Json → Str
  | .null => "None".toList
  | .bool true => "True".toList
  | .bool false => "False".toList
  | .num n => intChars n
  | .str s => s
  | .arr xs => '[' :: (pyReprList xs ++ [']'])
  | .obj kvs => '\x7b' :: (pyReprKvs kvs ++ ['\x7d'])

/-- Python `repr(v)` as used inside container displays. -/
def pyRepr : Json → Str
  | .str s => '\'' :: (s ++ ['\''])
  | .null => "None".toList
  | .bool true => "True".toList
  | .bool false => "False".toList
  | .num n => intChars n
  | .arr xs => '[' :: (pyReprList xs ++ [']'])
  | .obj kvs => '\x7b' :: (pyReprKvs kvs ++ ['\x7d'])

def pyReprList : List Json → Str
  | [] => []
  | [x] => pyRepr x
  | x :: y :: tl => pyRepr x ++ ',' :: ' ' :: pyReprList (y :: tl)

def pyReprKvs : List (Str × Json) → Str
  | [] => []
  | [(k, v)] => '\'' :: (k ++ '\'' :: ':' :: ' ' :: pyRepr v)
  | (k, v) :: m :: tl =>
    ('\'' :: (k ++ '\'' :: ':' :: ' ' :: pyRepr v)) ++ ',' :: ' ' :: pyReprKvs (m :: tl)

end

/-- Python `k.replace('_', ' ')`. -/
def underscoreToSpace (s : Str) : Str := s.map (fun c => if c = '_' then ' ' else c)

/-- `_stringify_list_content` from `integrate/backend/core/db_core.py`:
non-list content becomes `str(content or "")`; list elements become lines —
strings as-is, dicts as `Key: value` pairs joined by `", "` with keys
de-underscored and title-cased, anything else via `str` — joined by
newlines. -/
def stringify_list_content (content : Json) : Str :=
  match content with
  | .arr items =>
    joinSep ['\n']
      (items.map (fun item =>
        match item with
        | .str s => s
        | .obj kvs =>
          joinSep (", ".toList)
            (kvs.map (fun kv =>
              titleCase (underscoreToSpace kv.1) ++ ':' :: ' ' :: pyStr kv.2))
        | v => pyStr v))
  | v => if truthy v then pyStr v else []

/-- The Firestore query of `update_item_optimized_description`: the chained
`where(key, '==', value)` filters, one per match key whose value in the
merged item is truthy; a stored document matches when it carries each such
field with an equal value. -/
def matchesItem (match_keys : List Str) (m stored : List (Str × Json)) : Bool :=
  match_keys.all (fun k =>
    if truthy (pyGet m k) then
      match getVal stored k with
      | some v => Json.beq v (pyGet m k)
      | none => false
    else true)

/-- `query.limit(1).stream()` followed by updating `optimized_description`:
the first stored item satisfying the predicate gets only that field
rewritten; everything else is untouched, and nothing is inserted. -/
def updateFirst (p : List (Str × Json) → Bool) (v : Json) :
    List (List (Str × Json)) → List (List (Str × Json))
  | [] => []
  | it :: rest => if p it then setVal it optDescKey v :: rest else it :: updateFirst p v rest

/-- `update_item_optimized_description` from
`db_core.py::update_optimized_resume_relational` (lines 234-245): for each
merged item, stringify its description, find the first stored item whose
(truthy) identity fields all match, and rewrite only its
`optimized_description`. -/
def update_item_optimized_description (match_keys : List Str)
    (items : List (List (Str × Json))) (collection : List (List (Str × Json))) :
    List (List (Str × Json)) :=
  items.foldl
    (fun coll m =>
      updateFirst (matchesItem match_keys m)
        (.str (stringify_list_content (pyGetD m descKey (.arr [])))) coll)
    collection

/-! ## Association-list lemmas -/

theorem getVal_setVal_same (d : List (Str × Json)) (k : Str) (v : Json) :
    getVal (setVal d k v) k = some v := by
  induction d with
  | nil => simp [setVal, getVal]
  | cons kv rest ih =>
    obtain ⟨k', v'⟩ := kv
    by_cases h : k' = k
    · simp [setVal, h, getVal]
    · simp [setVal, h, getVal, ih]

theorem getVal_setVal_ne (d : List (Str × Json)) (k k2 : Str) (v : Json)
    (h : k2 ≠ k) : getVal (setVal d k v) k2 = getVal d k2 := by
  induction d with
  | nil => simp [setVal, getVal, Ne.symm h]
  | cons kv rest ih =>
    obtain ⟨k', v'⟩ := kv
    by_cases hk : k' = k
    · subst hk
      simp [setVal, getVal, Ne.symm h]
    · simp [setVal, hk, getVal, ih]

theorem setVal_self (d : List (Str × Json)) (k : Str) (v : Json)
    (h : getVal d k = some v) : setVal d k v = d := by
  induction d with
  | nil => simp [getVal] at h
  | cons kv rest ih =>
    obtain ⟨k', v'⟩ := kv
    by_cases hk : k' = k
    · subst hk
      simp [getVal] at h
      simp [setVal, h]
    · simp [getVal, hk] at h
      simp [setVal, hk, ih h]

theorem filter_setVal (d : List (Str × Json)) (k : Str) (v : Json)
    (p : Str × Json → Bool) (hp : ∀ w, p (k, w) = false) :
    (setVal d k v).filter p = d.filter p := by
  induction d with
  | nil => simp [setVal, hp]
  | cons kv rest ih =>
    obtain ⟨k', v'⟩ := kv
    by_cases hk : k' = k
    · subst hk
      simp [setVal, List.filter, hp]
    · simp [setVal, hk, List.filter]
      cases p (k', v') <;> simp [ih]

theorem getVal_of_nodupKeys (d : List (Str × Json)) (h : nodupKeysB d = true) :
    ∀ kv ∈ d, getVal d kv.1 = some kv.2 := by
  induction d with
  | nil => simp
  | cons kv0 rest ih =>
    obtain ⟨k0, v0⟩ := kv0
    simp [nodupKeysB, keyMem] at h
    obtain ⟨h1, h2⟩ := h
    intro kv hkv
    rcases List.mem_cons.mp hkv with hkv | hkv
    · subst hkv
      simp [getVal]
    · have hne : k0 ≠ kv.1 := by
        intro he
        have := ih h2 kv hkv
        rw [← he] at this
        simp [this] at h1
      simp [getVal, hne, ih h2 kv hkv]

theorem getVal_eraseKey_ne (d : List (Str × Json)) (key k : Str) (h : k ≠ key) :
    getVal (eraseKey d key) k = getVal d k := by
  induction d with
  | nil => simp [eraseKey, getVal]
  | cons kv rest ih =>
    obtain ⟨k', v'⟩ := kv
    by_cases hk : k' = key
    · subst hk
      have : k' ≠ k := fun hh => h hh.symm
      simp [eraseKey, List.filter, getVal, this] at ih ⊢
      exact ih
    · by_cases hkk : k' = k
      · subst hkk
        simp [eraseKey, List.filter, hk, getVal]
      · simp [eraseKey, List.filter, hk, getVal, hkk] at ih ⊢
        exact ih

/-! ## Generic string lemmas -/

theorem containsSub_nil (h : Str) : containsSub [] h = true := by
  cases h <;> simp [containsSub, startsWithL]

theorem trimL_all_ws (t : Str) (h : ∀ c ∈ t, isWspace c = true) : trimL t = [] := by
  induction t with
  | nil => rfl
  | cons c rest ih =>
    have hc := h c (by simp)
    simp only [trimL, List.dropWhile]
    rw [hc]
    exact ih (fun c' hc' => h c' (by simp [hc']))

theorem trim_all_ws (t : Str) (h : ∀ c ∈ t, isWspace c = true) : trim t = [] := by
  rw [trim, trimL_all_ws t h]
  rfl

theorem takeWhile_append_all (p : Char → Bool) (xs ys : Str)
    (h1 : ∀ c ∈ xs, p c = true)
    (h2 : ys = [] ∨ ∃ y t, ys = y :: t ∧ p y = false) :
    (xs ++ ys).takeWhile p = xs := by
  induction xs with
  | nil =>
    rcases h2 with h2 | ⟨y, t, rfl, hy⟩
    · simp [h2]
    · simp [List.takeWhile, hy]
  | cons c rest ih =>
    have hc := h1 c (by simp)
    simp only [List.cons_append, List.takeWhile_cons, hc, if_true]
    simp [ih (fun c' hc' => h1 c' (by simp [hc']))]

/-! ## Claim C1 -/

/-- The raw model response of the array-repair scenario: two adjacent JSON
objects with the separating comma missing. -/
def rawRatings : Str :=
  "[\x7b\"id\":0,\"rating\":8,\"reason\":\"match\"\x7d\x7b\"id\":1,\"rating\":3,\"reason\":\"weak\"\x7d]".toList

def ratingObj0 : Json :=
  .obj [("id".toList, .num 0), ("rating".toList, .num 8),
        ("reason".toList, .str ("match".toList))]

def ratingObj1 : Json :=
  .obj [("id".toList, .num 1), ("rating".toList, .num 3),
        ("reason".toList, .str ("weak".toList))]

/-- C3: on the raw text
`[{"id":0,"rating":8,"reason":"match"}{"id":1,"rating":3,"reason":"weak"}]`
the job-rating caller's extractor finds the bracket-delimited substring
(the whole text), the first strict parse fails, and after inserting a comma
between the adjacent `}`/`{` braces the retried strict parse yields exactly
the 2-element array of the two rating objects. -/
theorem job_ratings_comma_repair :
    bracketSub rawRatings = some rawRatings ∧
    jsonParse rawRatings = none ∧
    jsonParse (fixAdj rawRatings) = some (.arr [ratingObj0, ratingObj1]) ∧
    ratingsParse rawRatings = some (.arr [ratingObj0, ratingObj1]) ∧
    [ratingObj0, ratingObj1].length = 2 :=
  ⟨rfl, rfl, rfl, rfl, rfl⟩

/-! ## Claim C4 -/

/-- The acceptance test of the spec's fuzzy matcher, with the amended
candidate normalization: the target is trimmed, lower-cased and
space-to-underscore normalized; the candidate is lower-cased and
space-to-underscore normalized (not trimmed); accept on equality or when
either normalized string is a substring of the other. -/
def acceptsKey (t k : Str) : Bool :=
  t = lowerRepl k || containsSub t (lowerRepl k) || containsSub (lowerRepl k) t

theorem bestKeyGo_characterization (t : Str) (keys : List Str) :
    (∀ k, bestKeyGo t keys = some k →
      ∃ pre post, keys = pre ++ k :: post ∧ acceptsKey t k = true ∧
        ∀ k2 ∈ pre, acceptsKey t k2 = false) ∧
    ((∀ k ∈ keys, acceptsKey t k = false) → bestKeyGo t keys = none) := by
  induction keys with
  | nil => simp [bestKeyGo]
  | cons k0 ks ih =>
    constructor
    · intro k hk
      by_cases hacc : (t = lowerRepl k0 || containsSub t (lowerRepl k0)
          || containsSub (lowerRepl k0) t) = true
      · rw [bestKeyGo] at hk
        simp only [hacc, if_true, Option.some.injEq] at hk
        subst hk
        exact ⟨[], ks, rfl, hacc, by simp⟩
      · rw [bestKeyGo] at hk
        simp only [hacc, if_false] at hk
        obtain ⟨pre, post, hkeys, hacc2, hpre⟩ := ih.1 k hk
        refine ⟨k0 :: pre, post, by rw [hkeys]; rfl, hacc2, ?_⟩
        intro k2 hk2
        rcases List.mem_cons.mp hk2 with rfl | hk2
        · simpa [acceptsKey] using hacc
        · exact hpre k2 hk2
    · intro hall
      have h0 : acceptsKey t k0 = false := hall k0 (by simp)
      rw [bestKeyGo]
      simp only [acceptsKey] at h0
      simp only [h0, if_false]
      exact ih.2 (fun k hk => hall k (by simp [hk]))

/-- Counterexample to C4 as stated: the spec says each candidate is
"normalized the same way" as the target, i.e. trimmed as well.  On target
`"_wo"` and candidate `" work"`, the claim's procedure (with trimmed
candidates, `resolveSectionKeySpec`) accepts no candidate and must return
`null`, but `_best_section_key` normalizes the candidate to `"_work"`
without trimming, finds the target to be a substring of it, and returns
`" work"`. -/
theorem best_section_key_candidate_trim_mismatch :
    best_section_key ("_wo".toList) [" work".toList] = some (" work".toList) ∧
    resolveSectionKeySpec ("_wo".toList) [" work".toList] = none :=
  ⟨rfl, rfl⟩

/-- C4 (amended: candidates are normalized by lower-casing and
space-to-underscore replacement only, without trimming): the matcher
normalizes the target by trimming, lower-casing and replacing spaces with
underscores, accepts a candidate exactly when the normalized strings are
equal or one is a substring of the other, returns the first accepting
candidate in iteration order, and returns `null` when no candidate accepts
or the target is empty; in particular
`_best_section_key("work exp", ["work_experience","education"])` is
`"work_experience"` and `_best_section_key("zzz", ...)` is `null`. -/
theorem best_section_key_first_match (target : Str) (keys : List Str) :
    (target = [] → best_section_key target keys = none) ∧
    (∀ k, best_section_key target keys = some k →
      ∃ pre post, keys = pre ++ k :: post ∧
        acceptsKey (lowerRepl (trim target)) k = true ∧
        ∀ k2 ∈ pre, acceptsKey (lowerRepl (trim target)) k2 = false) ∧
    ((∀ k ∈ keys, acceptsKey (lowerRepl (trim target)) k = false) →
      best_section_key target keys = none) ∧
    best_section_key ("work exp".toList) ["work_experience".toList, "education".toList]
      = some ("work_experience".toList) ∧
    best_section_key ("zzz".toList) ["work_experience".toList, "education".toList]
      = none := by
  refine ⟨?_, ?_, ?_, rfl, rfl⟩
  · intro h
    simp [best_section_key, h]
  · intro k hk
    by_cases htgt : target = []
    · simp [best_section_key, htgt] at hk
    · rw [best_section_key, if_neg htgt] at hk
      exact (bestKeyGo_characterization (lowerRepl (trim target)) keys).1 k hk
  · intro hall
    by_cases htgt : target = []
    · simp [best_section_key, htgt]
    · rw [best_section_key, if_neg htgt]
      exact (bestKeyGo_characterization (lowerRepl (trim target)) keys).2 hall

/-- Witness for C4: the amended theorem applied at a concrete input. -/
theorem best_section_key_first_match_witness :
    best_section_key ("zzz".toList) ["work_experience".toList, "education".toList]
      = none :=
  (best_section_key_first_match ("zzz".toList)
    ["work_experience".toList, "education".toList]).2.2.1 (by decide)

/-! ## Claim C10 -/

/-- C10: on a whitespace-only but non-empty target and a non-empty key
list, `_best_section_key` returns the first key rather than `null`: the
falsy-guard tests the target before stripping, the normalized target
becomes the empty string, and the empty string is a substring of every
candidate. -/
theorem best_section_key_whitespace_target (t : Str) (k : Str) (ks : List Str)
    (hne : t ≠ []) (hws : ∀ c ∈ t, isWspace c = true) :
    best_section_key t (k :: ks) = some k := by
  rw [best_section_key, if_neg hne, trim_all_ws t hws]
  rw [bestKeyGo]
  simp [lowerRepl, containsSub_nil]

/-- Witness for C10 at the single-space target. -/
theorem best_section_key_whitespace_target_witness :
    best_section_key (" ".toList) ["work_experience".toList, "education".toList]
      = some ("work_experience".toList) :=
  best_section_key_whitespace_target (" ".toList) ("work_experience".toList)
    ["education".toList] (by decide) (by decide)

/-! ## Claim C7 -/

/-- C7: the targeted merge `resume_json[mapped] = optimized_data` of
`optimize_resume_json` replaces the resolved section wholly with the new
content and leaves every other top-level key bound to a value identical to
its value before the merge. -/
theorem mergeOptimizedSection_frame (record : List (Str × Json)) (target k : Str)
    (content : Json)
    (hres : best_section_key target (record.map Prod.fst) = some k) :
    getVal (mergeOptimizedSection record k content) k = some content ∧
    ∀ k2, k2 ≠ k →
      getVal (mergeOptimizedSection record k content) k2 = getVal record k2 := by
  constructor
  · exact getVal_setVal_same record k content
  · intro k2 hk2
    exact getVal_setVal_ne record k k2 content hk2

/-- Witness for C7 at a concrete record and section request. -/
theorem mergeOptimizedSection_frame_witness :
    getVal
      (mergeOptimizedSection
        [("summary".toList, Json.str ("s".toList)),
         ("projects".toList, Json.arr [Json.str ("p".toList)])]
        ("projects".toList) (Json.arr [Json.str ("q".toList)]))
      ("projects".toList) = some (Json.arr [Json.str ("q".toList)]) ∧
    getVal
      (mergeOptimizedSection
        [("summary".toList, Json.str ("s".toList)),
         ("projects".toList, Json.arr [Json.str ("p".toList)])]
        ("projects".toList) (Json.arr [Json.str ("q".toList)]))
      ("summary".toList) = some (Json.str ("s".toList)) := by
  have h := mergeOptimizedSection_frame
    [("summary".toList, Json.str ("s".toList)),
     ("projects".toList, Json.arr [Json.str ("p".toList)])]
    ("projects".toList) ("projects".toList) (Json.arr [Json.str ("q".toList)])
    (by decide)
  exact ⟨h.1, h.2 ("summary".toList) (by decide)⟩

/-! ## Claim C5 -/

/-- C5: `parse_user_optimization_input` returns `(null, null)` on empty or
whitespace-only input; when the input contains a colon it returns the
trimmed text before the first colon as the section hint and the trimmed
remainder as the instruction; otherwise a single whitespace-delimited token
becomes the section hint with no instruction, and any other input becomes
the instruction with no section hint.  In particular
`parse("projects: add more detail") = ("projects", "add more detail")`,
`parse("") = (null, null)` and `parse("summary") = ("summary", null)`. -/
theorem parse_user_optimization_input_spec (inp : Str) :
    (trim inp = [] → parse_user_optimization_input inp = (none, none)) ∧
    (∀ l r, trim inp = l ++ ':' :: r → (∀ c ∈ l, c ≠ ':') →
      parse_user_optimization_input inp = (some (trim l), some (trim r))) ∧
    ((∀ c ∈ trim inp, c ≠ ':') → trim inp ≠ [] → tokenCount (trim inp) = 1 →
      parse_user_optimization_input inp = (some (trim inp), none)) ∧
    ((∀ c ∈ trim inp, c ≠ ':') → trim inp ≠ [] → tokenCount (trim inp) ≠ 1 →
      parse_user_optimization_input inp = (none, some (trim inp))) ∧
    parse_user_optimization_input ("projects: add more detail".toList)
      = (some ("projects".toList), some ("add more detail".toList)) ∧
    parse_user_optimization_input [] = (none, none) ∧
    parse_user_optimization_input ("summary".toList)
      = (some ("summary".toList), none) := by
  refine ⟨?_, ?_, ?_, ?_, rfl, rfl, rfl⟩
  · intro h
    simp [parse_user_optimization_input, h]
  · intro l r hsplit hl
    have hne : trim inp ≠ [] := by
      rw [hsplit]
      simp
    have hany : (trim inp).any (fun c => c == ':') = true := by
      rw [hsplit]
      simp
    have htake : (trim inp).takeWhile (fun c => decide (c ≠ ':')) = l := by
      rw [hsplit]
      exact takeWhile_append_all _ l (':' :: r)
        (fun c hc => by simpa using hl c hc)
        (Or.inr ⟨':', r, rfl, by simp⟩)
    have hdrop : (trim inp).drop l.length = ':' :: r := by
      rw [hsplit]
      exact List.drop_left l (':' :: r)
    rw [parse_user_optimization_input]
    simp only [if_neg hne, hany, if_true, htake, hdrop]
    rfl
  · intro hnc hne htok
    have hany : (trim inp).any (fun c => c == ':') = false := by
      simp only [List.any_eq_false]
      intro c hc
      simpa using hnc c hc
    rw [parse_user_optimization_input]
    simp only [if_neg hne, hany, htok, if_true, if_false]
    rfl
  · intro hnc hne htok
    have hany : (trim inp).any (fun c => c == ':') = false := by
      simp only [List.any_eq_false]
      intro c hc
      simpa using hnc c hc
    rw [parse_user_optimization_input]
    simp only [if_neg hne, hany, if_neg htok, if_false]
    rfl

/-- Witness for C5: the characterization applied at the colon example. -/
theorem parse_user_optimization_input_spec_witness :
    parse_user_optimization_input ("projects: add more detail".toList)
      = (some ("projects".toList), some ("add more detail".toList)) :=
  (parse_user_optimization_input_spec ("projects: add more detail".toList)).2.1
    ("projects".toList) (" add more detail".toList) (by decide) (by decide)

/-! ## Claim C6 -/

theorem foldl_setVal_self (d : List (Str × Json)) :
    ∀ l : List (Str × Json), (∀ kv ∈ l, getVal d kv.1 = some kv.2) →
      l.foldl (fun acc kv => setVal acc kv.1 kv.2) d = d := by
  intro l
  induction l with
  | nil => intro _; rfl
  | cons kv rest ih =>
    intro h
    rw [List.foldl_cons, setVal_self d kv.1 kv.2 (h kv (by simp))]
    exact ih (fun kv2 h2 => h kv2 (by simp [h2]))

theorem dictUpdate_self (o : List (Str × Json)) (h : nodupKeysB o = true) :
    dictUpdate o o = o :=
  foldl_setVal_self o o (getVal_of_nodupKeys o h)

theorem mergeStep_self (record : List (Str × Json)) (kv : Str × Json)
    (hg : getVal record kv.1 = some kv.2)
    (hobj : ∀ o, kv.2 = .obj o → nodupKeysB o = true) :
    mergeStep record kv = record := by
  obtain ⟨k, v⟩ := kv
  cases v with
  | obj o =>
    simp only at hg
    rw [mergeStep]
    simp only [hg]
    rw [dictUpdate_self o (hobj o rfl)]
    exact setVal_self record k (.obj o) hg
  | arr l2 =>
    simp only at hg
    rw [mergeStep]
    simp only [hg]
    exact setVal_self record k (.arr l2) hg
  | null =>
    rw [mergeStep]
    simp only [hg]
    exact setVal_self record k .null hg
  | bool b =>
    rw [mergeStep]
    simp only [hg]
    exact setVal_self record k (.bool b) hg
  | num n =>
    rw [mergeStep]
    simp only [hg]
    exact setVal_self record k (.num n) hg
  | str s =>
    rw [mergeStep]
    simp only [hg]
    exact setVal_self record k (.str s) hg

/-- C6: the whole-record merge is idempotent — merging a record with itself
yields the same record (for any value denoting an actual Python dict, i.e.
with pairwise-distinct keys, also inside its dict-valued entries). -/
theorem mergeOptimizedRecord_idempotent (record : List (Str × Json))
    (h : wfRecord record = true) :
    mergeOptimizedRecord record record = record := by
  rw [wfRecord, Bool.and_eq_true] at h
  obtain ⟨hnd, hall⟩ := h
  rw [List.all_eq_true] at hall
  have key : ∀ l : List (Str × Json), (∀ kv ∈ l, getVal record kv.1 = some kv.2 ∧
      (∀ o, kv.2 = .obj o → nodupKeysB o = true)) →
      l.foldl mergeStep record = record := by
    intro l
    induction l with
    | nil => intro _; rfl
    | cons kv rest ih =>
      intro hl
      obtain ⟨hg, hobj⟩ := hl kv (by simp)
      rw [List.foldl_cons, mergeStep_self record kv hg hobj]
      exact ih (fun kv2 h2 => hl kv2 (by simp [h2]))
  refine key record (fun kv hkv => ⟨getVal_of_nodupKeys record hnd kv hkv, ?_⟩)
  intro o ho
  have := hall kv hkv
  rw [ho] at this
  simpa using this

/-- Witness for C6 at a concrete three-section record. -/
theorem mergeOptimizedRecord_idempotent_witness :
    mergeOptimizedRecord
      [("personal_info".toList, Json.obj [("name".toList, Json.str ("A".toList))]),
       ("projects".toList, Json.arr [Json.str ("p".toList)]),
       ("summary".toList, Json.str ("s".toList))]
      [("personal_info".toList, Json.obj [("name".toList, Json.str ("A".toList))]),
       ("projects".toList, Json.arr [Json.str ("p".toList)]),
       ("summary".toList, Json.str ("s".toList))]
    = [("personal_info".toList, Json.obj [("name".toList, Json.str ("A".toList))]),
       ("projects".toList, Json.arr [Json.str ("p".toList)]),
       ("summary".toList, Json.str ("s".toList))] :=
  mergeOptimizedRecord_idempotent
    [("personal_info".toList, Json.obj [("name".toList, Json.str ("A".toList))]),
     ("projects".toList, Json.arr [Json.str ("p".toList)]),
     ("summary".toList, Json.str ("s".toList))] (by decide)

/-! ## Claim C8 -/

/-- C8: when a stored item's `optimized_description` is absent or falsy,
the optimized view of `fetch_resume_relational` coincides with the original
view (the fallback is unconditional and cannot omit the section), and when
the item carries an original string description it is returned re-split
into lines; moreover, with `get_optimized = false`, the view never depends
on the `optimized_description` field at all (the optimized variant is
chosen only when present and explicitly requested). -/
theorem fetch_item_view_fallback (item : List (Str × Json))
    (hopt : truthy (pyGet item optDescKey) = false) :
    fetch_item_view true item = fetch_item_view false item ∧
    (∀ s, getVal item descKey = some (.str s) → s ≠ [] →
      getVal (fetch_item_view true item) descKey
        = some (.arr ((splitOnNl s).map Json.str))) ∧
    (∀ item2, eraseKey item2 optDescKey = eraseKey item optDescKey →
      fetch_item_view false item2 = fetch_item_view false item) := by
  refine ⟨?_, ?_, ?_⟩
  · rw [fetch_item_view, fetch_item_view]
    simp only [hopt, Bool.true_and, Bool.false_and, Bool.and_false, if_false]
  · intro s hdesc hs
    have hpg : pyGet item descKey = .str s := by
      rw [pyGet, pyGetD, hdesc]
    have htr : truthy (Json.str s) = true := by
      simp [truthy, hs]
    simp [fetch_item_view, hopt, hpg, htr, splitIfStr]
    rw [getVal_setVal_same]
  · intro item2 he
    have hv : ∀ k, k ≠ optDescKey → getVal item2 k = getVal item k := by
      intro k hk
      rw [← getVal_eraseKey_ne item2 optDescKey k hk, he,
        getVal_eraseKey_ne item optDescKey k hk]
    have hdesc2 : ("description".toList : Str) ≠ optDescKey := by decide
    have hfilter :
        item2.filter (fun kv => decide (kv.1 ≠ optDescKey) && decide (kv.1 ≠ descKey))
          = item.filter (fun kv => decide (kv.1 ≠ optDescKey) && decide (kv.1 ≠ descKey)) := by
      have h1 : ∀ d : List (Str × Json),
          d.filter (fun kv => decide (kv.1 ≠ optDescKey) && decide (kv.1 ≠ descKey))
            = (eraseKey d optDescKey).filter (fun kv => decide (kv.1 ≠ descKey)) := by
        intro d
        rw [eraseKey, List.filter_filter]
        apply List.filter_congr
        intro kv _
        cases h2 : decide (kv.1 ≠ optDescKey) <;> cases h3 : decide (kv.1 ≠ descKey) <;> simp [h2, h3]
      rw [h1, h1, he]
    have hv2 : pyGet item2 descKey = pyGet item descKey := by
      rw [pyGet, pyGetD, pyGet, pyGetD, hv descKey hdesc2]
    rw [fetch_item_view, fetch_item_view]
    simp only [Bool.false_and, Bool.false_eq_true, if_false]
    rw [hfilter, hv2]

/-- Witness for C8 at a concrete item with only an original description. -/
theorem fetch_item_view_fallback_witness :
    fetch_item_view true
      [("role".toList, Json.str ("Dev".toList)),
       ("description".toList, Json.str ("line 1\nline 2".toList)),
       ("optimized_description".toList, Json.null)]
    = fetch_item_view false
      [("role".toList, Json.str ("Dev".toList)),
       ("description".toList, Json.str ("line 1\nline 2".toList)),
       ("optimized_description".toList, Json.null)] ∧
    getVal
      (fetch_item_view true
        [("role".toList, Json.str ("Dev".toList)),
         ("description".toList, Json.str ("line 1\nline 2".toList)),
         ("optimized_description".toList, Json.null)])
      descKey
    = some (Json.arr [Json.str ("line 1".toList), Json.str ("line 2".toList)]) := by
  have h := fetch_item_view_fallback
    [("role".toList, Json.str ("Dev".toList)),
     ("description".toList, Json.str ("line 1\nline 2".toList)),
     ("optimized_description".toList, Json.null)] (by decide)
  refine ⟨h.1, ?_⟩
  have h2 := h.2.1 ("line 1\nline 2".toList) rfl (by decide)
  simpa using h2

/-! ## Claim C9 -/

theorem forall2_comp {α : Type} {R S T : α → α → Prop}
    (hcomp : ∀ a b c, R a b → S b c → T a c) :
    ∀ l1 l2 l3 : List α, List.Forall₂ R l1 l2 → List.Forall₂ S l2 l3 →
      List.Forall₂ T l1 l3 := by
  intro l1 l2 l3 h1
  induction h1 generalizing l3 with
  | nil =>
    intro h2
    cases h2
    exact .nil
  | cons hR _ ih =>
    intro h2
    cases h2 with
    | cons hS htail2 => exact .cons (hcomp _ _ _ hR hS) (ih _ htail2)

theorem updateFirst_forall2 (p : List (Str × Json) → Bool) (v : Json)
    (coll : List (List (Str × Json))) :
    List.Forall₂
      (fun old new => eraseKey new optDescKey = eraseKey old optDescKey ∧
        (new ≠ old → p old = true))
      coll (updateFirst p v coll) := by
  induction coll with
  | nil => exact .nil
  | cons it rest ih =>
    cases hp : p it with
    | true =>
      rw [updateFirst, hp]
      simp only [if_true]
      refine .cons ⟨?_, fun _ => hp⟩ ?_
      · rw [eraseKey, eraseKey]
        exact filter_setVal it optDescKey v _ (fun w => by simp)
      · exact List.forall₂_same.mpr (fun x _ => ⟨rfl, fun hne => absurd rfl hne⟩)
    | false =>
      rw [updateFirst, hp]
      simp only [Bool.false_eq_true, if_false]
      exact .cons ⟨rfl, fun hne => absurd rfl hne⟩ ih

theorem updateFirst_no_match (p : List (Str × Json) → Bool) (v : Json)
    (coll : List (List (Str × Json))) (h : ∀ st ∈ coll, p st = false) :
    updateFirst p v coll = coll := by
  induction coll with
  | nil => rfl
  | cons it rest ih =>
    rw [updateFirst, h it (by simp)]
    simp only [Bool.false_eq_true, if_false]
    rw [ih (fun st hst => h st (by simp [hst]))]

theorem update_item_forall2 (match_keys : List Str) :
    ∀ (items : List (List (Str × Json))) (coll : List (List (Str × Json))),
      List.Forall₂
        (fun old new => eraseKey new optDescKey = eraseKey old optDescKey ∧
          (new ≠ old → ∃ m ∈ items, matchesItem match_keys m old = true))
        coll (update_item_optimized_description match_keys items coll) := by
  intro items
  induction items with
  | nil =>
    intro coll
    exact List.forall₂_same.mpr (fun x _ => ⟨rfl, fun hne => absurd rfl hne⟩)
  | cons m rest ih =>
    intro coll
    rw [update_item_optimized_description, List.foldl_cons]
    have h1 := updateFirst_forall2 (matchesItem match_keys m)
      (.str (stringify_list_content (pyGetD m descKey (.arr [])))) coll
    have h2 := ih (updateFirst (matchesItem match_keys m)
      (.str (stringify_list_content (pyGetD m descKey (.arr [])))) coll)
    rw [update_item_optimized_description] at h2
    refine forall2_comp ?_ _ _ _ h1 h2
    intro a b c hab hbc
    refine ⟨hbc.1.trans hab.1, ?_⟩
    intro hca
    by_cases hba : b = a
    · subst hba
      obtain ⟨m2, hm2, hmatch⟩ := hbc.2 hca
      exact ⟨m2, by simp [hm2], hmatch⟩
    · exact ⟨m, by simp, hab.2 hba⟩

/-- C9: propagating merged items to the datastore via
`update_item_optimized_description` updates only the
`optimized_description` field of the stored item whose identity fields
match those of a merged item: every stored item of the resulting collection
agrees with its original on all other fields, an item is changed only when
some merged item's (truthy) identity fields all equal its own, no item is
inserted or removed, and when no merged item matches any stored item the
collection is returned unchanged. -/
theorem update_optimized_frame (match_keys : List Str)
    (items coll : List (List (Str × Json))) :
    List.Forall₂
      (fun old new => eraseKey new optDescKey = eraseKey old optDescKey ∧
        (new ≠ old → ∃ m ∈ items, matchesItem match_keys m old = true))
      coll (update_item_optimized_description match_keys items coll) ∧
    ((∀ m ∈ items, ∀ st ∈ coll, matchesItem match_keys m st = false) →
      update_item_optimized_description match_keys items coll = coll) ∧
    (update_item_optimized_description match_keys items coll).length
      = coll.length := by
  refine ⟨update_item_forall2 match_keys items coll, ?_, ?_⟩
  · intro hnone
    induction items with
    | nil => rfl
    | cons m rest ih =>
      rw [update_item_optimized_description, List.foldl_cons,
        updateFirst_no_match _ _ coll (hnone m (by simp))]
      rw [update_item_optimized_description] at ih
      exact ih (fun m2 hm2 st hst => hnone m2 (by simp [hm2]) st hst)
  · exact ((update_item_forall2 match_keys items coll).length_eq).symm

/-- Witness for C9: a merged item matching no stored item is silently
skipped — the stored collection is unchanged and nothing is inserted. -/
theorem update_optimized_frame_witness :
    update_item_optimized_description ["role".toList, "company".toList]
      [[("role".toList, Json.str ("Dev".toList)),
        ("company".toList, Json.str ("Acme".toList)),
        ("description".toList, Json.arr [Json.str ("new".toList)])]]
      [[("role".toList, Json.str ("QA".toList)),
        ("company".toList, Json.str ("Other".toList)),
        ("description".toList, Json.str ("old".toList)),
        ("optimized_description".toList, Json.null)]]
    = [[("role".toList, Json.str ("QA".toList)),
        ("company".toList, Json.str ("Other".toList)),
        ("description".toList, Json.str ("old".toList)),
        ("optimized_description".toList, Json.null)]] :=
  (update_optimized_frame ["role".toList, "company".toList]
    [[("role".toList, Json.str ("Dev".toList)),
      ("company".toList, Json.str ("Acme".toList)),
      ("description".toList, Json.arr [Json.str ("new".toList)])]]
    [[("role".toList, Json.str ("QA".toList)),
      ("company".toList, Json.str ("Other".toList)),
      ("description".toList, Json.str ("old".toList)),
      ("optimized_description".toList, Json.null)]]).2.1 (by decide)

/-! ## Round-trip development for claim C2 -/

end GenAIHack
